import Mathlib

/-!
Shallow embedding of the deal-discovery and deduplication pipeline of the
NFT-Bot repository (src/scanner.py, src/db.py, src/handlers.py), together
with theorems settling the frozen claims about that pipeline.

Conventions of the embedding:
* Python floats and Decimals are modelled as rationals.
* A Python value that may be None is an Option.
* Python falsy-aware chains (a or b) get explicit helpers (orQ, orS) that
  treat 0 and the empty string as falsy, exactly as Python does.
* The sha256 fingerprint of scanner.py hash deal is modelled by its
  preimage string (the joined field string); only determinism and
  injectivity of the fingerprint matter to the claims, and the preimage
  string is deterministic and injective where sha256 is
  collision-resistant.
* Database tables are lists of rows; the chat transport is an oracle
  function saying whether a given send succeeds.
-/

namespace NFTBot

/-- Python falsy-or on optional numbers: a or b, where None and 0 are falsy. -/
def orQ (a b : Option ℚ) : Option ℚ :=
  match a with
  | some q => if q = 0 then b else some q
  | none => b

/-- Python falsy-or on optional strings: a or b, where None and the empty string are falsy. -/
def orS (a b : Option String) : Option String :=
  match a with
  | some s => if s = "" then b else some s
  | none => b

/-- Deterministic rendering of a rational, standing in for Python str() on a float. -/
def showQ (q : ℚ) : String :=
  toString q.num ++ "/" ++ toString q.den

/-- Python str() applied to an optional string field (str(None) is the text None). -/
def strOptS (o : Option String) : String :=
  match o with
  | some s => s
  | none => "None"

/-- Python str() applied to an optional numeric field. -/
def strOptQ (o : Option ℚ) : String :=
  match o with
  | some q => showQ q
  | none => "None"

/-- A normalized deal dict as produced by the source adapters in scanner.py. -/
structure Deal where
  id : Option String := none
  nft_address : Option String := none
  name : Option String := none
  collection : Option String := none
  collection_address : Option String := none
  market : Option String := none
  price_ton : Option ℚ := none
  fair_price_ton : Option ℚ := none
  floor_price_ton : Option ℚ := none
  discount_pct : Option ℚ := none
  url : Option String := none
  deriving DecidableEq

/-- scanner.py hash deal: the fingerprint preimage
    str(id) | str(nft_address) | str(price_ton) | str(market). -/
def hash_deal (d : Deal) : String :=
  strOptS d.id ++ "|" ++ strOptS d.nft_address ++ "|" ++ strOptQ d.price_ton
    ++ "|" ++ strOptS d.market

/-- The per-user scanner settings dict read by the filter in scanner.py.
    The dict returned by get_or_create_scanner_settings carries the keys
    min_discount, max_price_ton and collections; the filter additionally
    probes the keys min_discount_pct and min_price_ton, absent from that
    dict, hence all fields are optional. -/
structure ScannerSettings where
  min_discount_pct : Option ℚ := none
  min_discount : Option ℚ := none
  min_price_ton : Option ℚ := none
  max_price_ton : Option ℚ := none
  collections : Option (List String) := none
  deriving DecidableEq

/-- float(deal.get(price_ton) or 0.0): an absent price is coerced to 0. -/
def price_of (d : Deal) : ℚ :=
  (d.price_ton).getD 0

/-- deal.get(fair_price_ton) or deal.get(floor_price_ton), Python falsy chain. -/
def fair_of (d : Deal) : Option ℚ :=
  orQ d.fair_price_ton d.floor_price_ton

/-- scanner.py calc discount pct: when a positive fair/floor price is known
    the discount is (1 - price/fair) * 100 clamped at 0 from below;
    otherwise the discount_pct field coerced through float(x or 0.0). -/
def calc_discount_pct (d : Deal) : ℚ :=
  match fair_of d with
  | some fair =>
      if 0 < fair then max 0 ((1 - price_of d / fair) * 100)
      else (d.discount_pct).getD 0
  | none => (d.discount_pct).getD 0

/-- float(st.get(min_discount_pct) or st.get(min_discount) or 0). -/
def min_disc_of (st : ScannerSettings) : ℚ :=
  (orQ st.min_discount_pct st.min_discount).getD 0

/-- The float tolerance 1e-9 used by the comparisons in scanner.py. -/
def eps : ℚ := 1 / 1000000000

/-- Discount stage of scanner.py passes filters with reason:
    reject when disc + 1e-9 < min_disc. -/
def discount_ok (d : Deal) (st : ScannerSettings) : Bool :=
  !(calc_discount_pct d + eps < min_disc_of st)

/-- Minimum-price stage: reject when p + 1e-9 < min_price (if set). -/
def min_price_ok (p : ℚ) (st : ScannerSettings) : Bool :=
  match st.min_price_ton with
  | none => true
  | some m => !(p + eps < m)

/-- Price-ceiling stage: reject when p - 1e-9 > max_price (if set). -/
def max_price_ok (p : ℚ) (st : ScannerSettings) : Bool :=
  match st.max_price_ton with
  | none => true
  | some m => !(p - eps > m)

/-- Collection allow-list stage: with a non-empty allow-list, reject when the
    lower-cased collection (or collection_address) is non-empty and not in the
    lower-cased allow-list; an empty or unknown collection always passes. -/
def collections_ok (d : Deal) (st : ScannerSettings) : Bool :=
  let cols := (st.collections).getD []
  if cols.isEmpty then true
  else
    let col := ((orS d.collection d.collection_address).getD "").toLower
    if col ≠ "" && !((cols.map String.toLower).contains col) then false else true

/-- scanner.py passes filters with reason, boolean verdict (the reason string
    reported alongside it is log-only and omitted).  The stages are composed
    in the short-circuit order of the source: discount, min price, max price,
    collections. -/
def passes_filters (d : Deal) (st : ScannerSettings) : Bool :=
  discount_ok d st
    && min_price_ok (price_of d) st
    && max_price_ok (price_of d) st
    && collections_ok d st

/-- A row of the app_found_deals table (db.py): the dedup ledger entry with
    the deal_id key and the denormalized snapshot stored by mark_deal_seen. -/
structure SeenRow where
  deal_id : String
  url : Option String := none
  collection : Option String := none
  name : Option String := none
  price_ton : Option ℚ := none
  floor_ton : Option ℚ := none
  discount : ℚ := 0
  deriving DecidableEq

/-- db.py was deal seen: SELECT 1 FROM app_found_deals WHERE deal_id = x. -/
def was_deal_seen (db : List SeenRow) (id : String) : Bool :=
  db.any (fun r => r.deal_id == id)

/-- db.py mark deal seen: INSERT ... ON CONFLICT (deal_id) DO NOTHING. -/
def mark_deal_seen (db : List SeenRow) (row : SeenRow) : List SeenRow :=
  if db.any (fun r => r.deal_id == row.deal_id) then db else db ++ [row]

/-- The snapshot dict scanner.py notify user passes to mark_deal_seen. -/
def row_of (d : Deal) : SeenRow :=
  { deal_id := hash_deal d
    url := d.url
    collection := d.collection
    name := d.name
    price_ton := d.price_ton
    floor_ton := fair_of d
    discount := calc_discount_pct d }

/-- SCANNER_MAX_DEALS_PER_USER with its default value 3. -/
def MAX_DEALS_PER_USER : ℕ := 3

/-- Observable outcome of one notify-user run: the ledger after the run, the
    deals whose message was actually delivered, and the deals for which a
    delivery attempt was made (delivered or not). -/
structure NotifyRes where
  db : List SeenRow
  sent : List Deal
  attempted : List Deal
  deriving DecidableEq

/-- scanner.py notify user.  wasOk / markOk say whether the was_deal_seen and
    mark_deal_seen database calls succeed; when a call raises, the source
    swallows the exception: a failed was_deal_seen does not skip the deal
    (the code comment says it keeps sending, without dedup) and a failed
    mark_deal_seen leaves the ledger unchanged.  sendOk is the chat
    transport: whether bot.send_message succeeds for a given deal (a failed
    send is logged and the loop continues; it still counts as an attempt and
    the deal is still marked).  sent counts successful sends only and the
    loop breaks once it reaches MAX_DEALS_PER_USER. -/
def notify_user (wasOk markOk : Bool) (sendOk : Deal → Bool) :
    ℕ → List SeenRow → List Deal → NotifyRes
  | _, db, [] => ⟨db, [], []⟩
  | sent, db, d :: ds =>
    if MAX_DEALS_PER_USER ≤ sent then ⟨db, [], []⟩
    else if wasOk && was_deal_seen db (hash_deal d) then
      notify_user wasOk markOk sendOk sent db ds
    else
      ⟨(notify_user wasOk markOk sendOk (if sendOk d then sent + 1 else sent)
          (if markOk then mark_deal_seen db (row_of d) else db) ds).db,
        (if sendOk d then [d] else [])
          ++ (notify_user wasOk markOk sendOk (if sendOk d then sent + 1 else sent)
              (if markOk then mark_deal_seen db (row_of d) else db) ds).sent,
        d :: (notify_user wasOk markOk sendOk (if sendOk d then sent + 1 else sent)
              (if markOk then mark_deal_seen db (row_of d) else db) ds).attempted⟩

/-- The per-user surviving candidate list built inside scanner.py
    scanner_tick: the deals passing the user filters, in batch order. -/
def select_deals (deals : List Deal) (st : ScannerSettings) : List Deal :=
  deals.filter (fun d => passes_filters d st)

/-- Observable outcome of one scanner_tick: the ledger after the tick and the
    (user, deal) delivery/attempt pairs. -/
structure TickRes where
  db : List SeenRow
  sent : List (ℕ × Deal)
  attempted : List (ℕ × Deal)
  deriving DecidableEq

/-- scanner.py scanner_tick, per-user part: each enabled user is given as a
    (user_id, settings) pair (the source skips users whose id or settings
    cannot be loaded; such users are simply absent from the list).  For each
    user: filter the batch, and when anything survives run notify_user on the
    surviving list.  The ledger is threaded from user to user. -/
def scanner_tick (wasOk markOk : Bool) (sendOk : ℕ → Deal → Bool)
    (deals : List Deal) :
    List (ℕ × ScannerSettings) → List SeenRow → TickRes
  | [], db => ⟨db, [], []⟩
  | (uid, st) :: users, db =>
    let filtered := select_deals deals st
    if filtered.isEmpty then scanner_tick wasOk markOk sendOk deals users db
    else
      let r := notify_user wasOk markOk (sendOk uid) 0 db filtered
      let r2 := scanner_tick wasOk markOk sendOk deals users r.db
      ⟨r2.db, r.sent.map (fun d => (uid, d)) ++ r2.sent,
        r.attempted.map (fun d => (uid, d)) ++ r2.attempted⟩

/-- The deal_id column of a ledger. -/
def db_ids (db : List SeenRow) : List String :=
  db.map (fun r => r.deal_id)

/-- The type of the merge key used by scanner.py fetch all sources. -/
abbrev DealKey := Option String × Option String × Option String × Option ℚ

/-- The merge key of scanner.py fetch all sources:
    (market, id, nft_address, price_ton). -/
def deal_key (d : Deal) : DealKey :=
  (d.market, d.id, d.nft_address, d.price_ton)

/-- The merge loop of scanner.py fetch all sources: walk the concatenated
    batch, keep a deal when its key has not been seen yet in this batch. -/
def dedup_by_key (seen : List DealKey) :
    List Deal → List Deal
  | [] => []
  | d :: ds =>
    if deal_key d ∈ seen then dedup_by_key seen ds
    else d :: dedup_by_key (deal_key d :: seen) ds

/-- A raw TonAPI order item after JSON extraction, fields optional because the
    response shape varies between API revisions.  price_ton is the value after
    the price_ton / price.value / price chain and the float() parse: none when
    missing or unparsable.  collection is the value after the
    dict-versus-string extraction of the collection field. -/
structure RawTonItem where
  id : Option String := none
  order_id : Option String := none
  nft_item_id : Option String := none
  address : Option String := none
  nft_address : Option String := none
  name : Option String := none
  nft_name : Option String := none
  collection : Option String := none
  market : Option String := none
  source : Option String := none
  price_ton : Option ℚ := none
  fair_price_ton : Option ℚ := none
  floor_price_ton : Option ℚ := none
  discount_pct : Option ℚ := none
  url : Option String := none
  link : Option String := none
  deriving DecidableEq

/-- The deal dict scanner.py fetch from tonapi builds for one raw item. -/
def normalize_ton_item (it : RawTonItem) : Deal :=
  { id := orS it.id (orS it.order_id (orS it.nft_item_id it.address))
    nft_address := orS it.nft_address it.address
    name := orS it.name (orS it.nft_name (some ""))
    collection := it.collection
    collection_address := none
    market := orS it.market (orS it.source (some "TonAPI"))
    price_ton := it.price_ton
    fair_price_ton := orQ it.fair_price_ton it.floor_price_ton
    floor_price_ton := none
    discount_pct := it.discount_pct
    url := orS it.url it.link }

/-- One TonAPI candidate-URL outcome: a network/timeout exception, or a
    response with a status code and a body; body none means r.json() raised,
    body some items is the orders / items / nft_items chain (an unexpected
    shape yields the empty list). -/
inductive TonResp where
  | fail : TonResp
  | resp (status : ℕ) (body : Option (List RawTonItem)) : TonResp
  deriving DecidableEq

/-- The per-candidate loop of scanner.py fetch from tonapi: skip failed or
    non-200 or unparsable responses, return the first candidate whose item
    list is non-empty, and the empty list when the loop exhausts. -/
def tonapi_loop : List TonResp → List Deal
  | [] => []
  | TonResp.fail :: rs => tonapi_loop rs
  | TonResp.resp status body :: rs =>
    if status ≠ 200 then tonapi_loop rs
    else
      match body with
      | none => tonapi_loop rs
      | some raw =>
        let items := raw.map normalize_ton_item
        if items.isEmpty then tonapi_loop rs else items

/-- scanner.py fetch from tonapi: without a token the adapter is skipped. -/
def fetch_from_tonapi (hasToken : Bool) (resps : List TonResp) : List Deal :=
  if !hasToken then [] else tonapi_loop resps

/-- A raw Getgems GraphQL order node, fields flattened out of the nested
    nftItem / collection objects (absent objects give none throughout). -/
structure RawGGItem where
  id : Option String := none
  price : Option ℚ := none
  nft_address : Option String := none
  nft_name : Option String := none
  collection : Option String := none
  url : Option String := none
  deriving DecidableEq

/-- The deal dict scanner.py fetch from getgems builds for one node. -/
def normalize_gg_item (it : RawGGItem) : Deal :=
  { id := it.id
    nft_address := it.nft_address
    name := orS it.nft_name (some "")
    collection := it.collection
    collection_address := none
    market := some "Getgems"
    price_ton := it.price
    fair_price_ton := none
    floor_price_ton := none
    discount_pct := none
    url := it.url }

/-- The single Getgems GraphQL response: a network exception, or a status
    code and a body; body none means r.json() raised, body some nodes is the
    orders / marketplaceOrders chain (unexpected shape yields the empty list). -/
inductive GGResp where
  | fail : GGResp
  | resp (status : ℕ) (body : Option (List RawGGItem)) : GGResp
  deriving DecidableEq

/-- scanner.py fetch from getgems: disabled, failed, non-200 and unparsable
    all give the empty list; otherwise the normalized nodes. -/
def fetch_from_getgems (enabled : Bool) (r : GGResp) : List Deal :=
  if !enabled then []
  else
    match r with
    | GGResp.fail => []
    | GGResp.resp status body =>
      if status ≠ 200 then []
      else
        match body with
        | none => []
        | some raw => raw.map normalize_gg_item

/-- scanner.py fetch all sources, given the two adapter results: collect the
    non-empty adapter outputs and merge them with the first-wins dedup. -/
def fetch_all_sources (ton gg : List Deal) : List Deal :=
  let sources := (if ton.isEmpty then [] else [ton]) ++ (if gg.isEmpty then [] else [gg])
  dedup_by_key [] sources.flatten

/-- A failed TonAPI candidate outcome: network error, non-200 status,
    unparsable body, or a shape carrying no items. -/
def ton_resp_failed (r : TonResp) : Bool :=
  match r with
  | TonResp.fail => true
  | TonResp.resp status body =>
    status ≠ 200 || (match body with | none => true | some raw => raw.isEmpty)

/-- A failed Getgems outcome: network error, non-200 status or unparsable
    body (an empty node list is a successful empty result there). -/
def gg_resp_failed (r : GGResp) : Bool :=
  match r with
  | GGResp.fail => true
  | GGResp.resp status body => status ≠ 200 || body.isNone

/-! ## The handlers.py variant of the pipeline

handlers.py carries a second, independent rewrite of the matcher, driven by
a JSON feed: item dicts, per-user settings rows, an _item_discount /
_item_matches filter and a per-(user, item) sent ledger. -/

/-- A feed item as consumed by handlers.py.  price_ton distinguishes a
    missing key (none) from an explicit JSON null (some none): the two
    behave differently in the max-price check, which reads the key with the
    string default "0". -/
structure Item where
  id : Option String := none
  price_ton : Option (Option ℚ) := none
  floor_ton : Option ℚ := none
  discount : Option ℚ := none
  listed_at : Option ℤ := none
  collection : Option String := none
  name : Option String := none
  url : Option String := none
  image : Option String := none
  deriving DecidableEq

/-- A row of app_scanner_settings as loaded by handlers.py
    (min_discount NOT NULL DEFAULT 25, max_price_ton and collections nullable). -/
structure StRow where
  min_discount : ℚ := 25
  max_price_ton : Option ℚ := none
  collections : Option (List String) := none
  deriving DecidableEq

/-- handlers.py item discount: the discount field when supplied, else
    (floor - price) / floor * 100 when price is present and floor is present
    and positive, else None.  No clamping. -/
def item_discount (it : Item) : Option ℚ :=
  match it.discount with
  | some q => some q
  | none =>
    match it.price_ton.join, it.floor_ton with
    | some p, some f => if 0 < f then some ((f - p) / f * 100) else none
    | _, _ => none

/-- SCAN_LOOKBACK_MIN with its default value 180 minutes. -/
def SCAN_LOOKBACK_MIN : ℤ := 180

/-- handlers.py item fresh enough, at current epoch time now: a missing or
    falsy (zero) timestamp is fresh; otherwise require an age of at most
    SCAN_LOOKBACK_MIN minutes. -/
def item_fresh_enough (now : ℤ) (it : Item) : Bool :=
  match it.listed_at with
  | none => true
  | some ts => if ts = 0 then true else now - ts ≤ SCAN_LOOKBACK_MIN * 60

/-- handlers.py item matches: freshness, then discount (a None discount never
    matches), then the max-price check (missing price key reads as the string
    0; an explicit null price makes Decimal(str(None)) raise, which the code
    turns into a rejection), then the trimmed, lower-cased allow-list. -/
def item_matches (now : ℤ) (it : Item) (st : StRow) : Bool :=
  if !item_fresh_enough now it then false
  else
    match item_discount it with
    | none => false
    | some disc =>
      if disc < st.min_discount then false
      else
        let priceOk : Bool :=
          match st.max_price_ton with
          | none => true
          | some m =>
            match it.price_ton with
            | none => !((0 : ℚ) > m)
            | some none => false
            | some (some p) => !(p > m)
        if !priceOk then false
        else
          match st.collections with
          | none => true
          | some cols =>
            if cols.isEmpty then true
            else
              let colsL := cols.map (fun c => c.trim.toLower)
              let ic := (it.collection.getD "").trim.toLower
              if ic ≠ "" && !(colsL.contains ic) then false else true

/-! ## Ledger lemmas -/

lemma was_deal_seen_mark (db : List SeenRow) (row : SeenRow) (x : String)
    (h : was_deal_seen db x = true) :
    was_deal_seen (mark_deal_seen db row) x = true := by
  unfold mark_deal_seen
  split
  · exact h
  · unfold was_deal_seen at h ⊢
    simp only [List.any_append, Bool.or_eq_true]
    exact Or.inl h

lemma was_deal_seen_mark_self (db : List SeenRow) (row : SeenRow) :
    was_deal_seen (mark_deal_seen db row) row.deal_id = true := by
  unfold mark_deal_seen
  split
  · next h => exact h
  · unfold was_deal_seen
    simp

lemma db_ids_mark_sub (db : List SeenRow) (row : SeenRow) (x : String)
    (h : x ∈ db_ids (mark_deal_seen db row)) :
    x ∈ db_ids db ∨ x = row.deal_id := by
  unfold mark_deal_seen at h
  split at h
  · exact Or.inl h
  · unfold db_ids at h ⊢
    simp only [List.map_append, List.mem_append, List.map_cons, List.map_nil,
      List.mem_singleton] at h
    exact h

/-! ## notify_user lemmas -/

/-- The ledger after a notify_user run still knows every identity it knew
    before the run. -/
lemma notify_db_mono (wasOk markOk : Bool) (f : Deal → Bool) (x : String) :
    ∀ (ds : List Deal) (sent : ℕ) (db : List SeenRow),
      was_deal_seen db x = true →
      was_deal_seen (notify_user wasOk markOk f sent db ds).db x = true := by
  intro ds
  induction ds with
  | nil => intro sent db h; simpa [notify_user] using h
  | cons d ds ih =>
    intro sent db h
    by_cases hcap : MAX_DEALS_PER_USER ≤ sent
    · simpa [notify_user, hcap] using h
    · by_cases hskip : (wasOk && was_deal_seen db (hash_deal d)) = true
      · simpa [notify_user, hcap, hskip] using ih sent db h
      · simp only [notify_user, hcap, hskip, if_false, if_neg, Bool.false_eq_true,
          ite_false, ite_true]
        have h' : was_deal_seen
            (if markOk then mark_deal_seen db (row_of d) else db) x = true := by
          split
          · exact was_deal_seen_mark db (row_of d) x h
          · exact h
        simpa [hcap, hskip] using
          ih (if f d then sent + 1 else sent)
            (if markOk then mark_deal_seen db (row_of d) else db) h'

/-- Unfolding equation: empty batch. -/
lemma notify_user_nil (wasOk markOk : Bool) (f : Deal → Bool)
    (sent : ℕ) (db : List SeenRow) :
    notify_user wasOk markOk f sent db [] = ⟨db, [], []⟩ := rfl

/-- Unfolding equation: the cap was reached, the loop breaks. -/
lemma notify_user_cons_break (wasOk markOk : Bool) (f : Deal → Bool)
    (sent : ℕ) (db : List SeenRow) (d : Deal) (ds : List Deal)
    (hcap : MAX_DEALS_PER_USER ≤ sent) :
    notify_user wasOk markOk f sent db (d :: ds) = ⟨db, [], []⟩ := by
  simp [notify_user, hcap]

/-- Unfolding equation: the ledger already knows the head deal, it is skipped. -/
lemma notify_user_cons_skip (wasOk markOk : Bool) (f : Deal → Bool)
    (sent : ℕ) (db : List SeenRow) (d : Deal) (ds : List Deal)
    (hcap : ¬ MAX_DEALS_PER_USER ≤ sent)
    (hskip : (wasOk && was_deal_seen db (hash_deal d)) = true) :
    notify_user wasOk markOk f sent db (d :: ds) =
      notify_user wasOk markOk f sent db ds := by
  simp [notify_user, hcap, hskip]

/-- Unfolding equation: the head deal is attempted, marked when the ledger
    write works, and counted when the transport delivers it. -/
lemma notify_user_cons_go (wasOk markOk : Bool) (f : Deal → Bool)
    (sent : ℕ) (db : List SeenRow) (d : Deal) (ds : List Deal)
    (hcap : ¬ MAX_DEALS_PER_USER ≤ sent)
    (hskip : (wasOk && was_deal_seen db (hash_deal d)) = false) :
    notify_user wasOk markOk f sent db (d :: ds) =
      ⟨(notify_user wasOk markOk f (if f d then sent + 1 else sent)
          (if markOk then mark_deal_seen db (row_of d) else db) ds).db,
        (if f d then [d] else [])
          ++ (notify_user wasOk markOk f (if f d then sent + 1 else sent)
              (if markOk then mark_deal_seen db (row_of d) else db) ds).sent,
        d :: (notify_user wasOk markOk f (if f d then sent + 1 else sent)
              (if markOk then mark_deal_seen db (row_of d) else db) ds).attempted⟩ := by
  rw [notify_user]
  rw [if_neg hcap, if_neg (by simp [hskip])]

/-- With working ledger reads, a deal whose identity the ledger already
    contains is never delivered by notify_user. -/
lemma notify_seen_not_sent (markOk : Bool) (f : Deal → Bool) (d : Deal) :
    ∀ (ds : List Deal) (sent : ℕ) (db : List SeenRow),
      was_deal_seen db (hash_deal d) = true →
      d ∉ (notify_user true markOk f sent db ds).sent := by
  intro ds
  induction ds with
  | nil => intro sent db _ hmem; simp [notify_user_nil] at hmem
  | cons d' ds ih =>
    intro sent db h hmem
    by_cases hcap : MAX_DEALS_PER_USER ≤ sent
    · rw [notify_user_cons_break _ _ _ _ _ _ _ hcap] at hmem
      simp at hmem
    · by_cases hskip : (true && was_deal_seen db (hash_deal d')) = true
      · rw [notify_user_cons_skip _ _ _ _ _ _ _ hcap hskip] at hmem
        exact ih sent db h hmem
      · have hskip' : (true && was_deal_seen db (hash_deal d')) = false := by
          simpa using hskip
        have hne : d' ≠ d := by
          intro he
          rw [he] at hskip'
          simp [h] at hskip'
        rw [notify_user_cons_go _ _ _ _ _ _ _ hcap hskip'] at hmem
        simp only [List.mem_append] at hmem
        have h' : was_deal_seen
            (if markOk then mark_deal_seen db (row_of d') else db) (hash_deal d) = true := by
          split
          · exact was_deal_seen_mark db (row_of d') (hash_deal d) h
          · exact h
        rcases hmem with hmem | hmem
        · by_cases hsend : f d' = true
          · rw [if_pos hsend] at hmem
            exact hne (List.mem_singleton.mp hmem).symm
          · rw [if_neg (by simpa using hsend)] at hmem
            simp at hmem
        · exact ih (if f d' then sent + 1 else sent)
            (if markOk then mark_deal_seen db (row_of d') else db) h' hmem

/-- With working ledger reads, every deal notify_user delivers was unseen in
    the ledger the run started from. -/
lemma notify_sent_unseen (markOk : Bool) (f : Deal → Bool) (d : Deal)
    (ds : List Deal) (sent : ℕ) (db : List SeenRow)
    (hmem : d ∈ (notify_user true markOk f sent db ds).sent) :
    was_deal_seen db (hash_deal d) = false := by
  by_cases hseen : was_deal_seen db (hash_deal d) = true
  · exact absurd hmem (notify_seen_not_sent markOk f d ds sent db hseen)
  · exact Bool.eq_false_iff.mpr (fun hc => hseen hc)

/-- Every identity in the ledger after a notify_user run was either already
    there, or is the fingerprint of a deal the run attempted to deliver. -/
lemma notify_ids_from_attempts (wasOk markOk : Bool) (f : Deal → Bool) (x : String) :
    ∀ (ds : List Deal) (sent : ℕ) (db : List SeenRow),
      x ∈ db_ids (notify_user wasOk markOk f sent db ds).db →
      x ∈ db_ids db ∨
        x ∈ (notify_user wasOk markOk f sent db ds).attempted.map hash_deal := by
  intro ds
  induction ds with
  | nil => intro sent db h; rw [notify_user_nil] at h ⊢; exact Or.inl h
  | cons d' ds ih =>
    intro sent db h
    by_cases hcap : MAX_DEALS_PER_USER ≤ sent
    · rw [notify_user_cons_break _ _ _ _ _ _ _ hcap] at h ⊢
      exact Or.inl h
    · by_cases hskip : (wasOk && was_deal_seen db (hash_deal d')) = true
      · rw [notify_user_cons_skip _ _ _ _ _ _ _ hcap hskip] at h ⊢
        exact ih sent db h
      · have hskip' : (wasOk && was_deal_seen db (hash_deal d')) = false := by
          simpa using hskip
        rw [notify_user_cons_go _ _ _ _ _ _ _ hcap hskip'] at h ⊢
        simp only [List.map_cons, List.mem_cons]
        rcases ih (if f d' then sent + 1 else sent)
            (if markOk then mark_deal_seen db (row_of d') else db) h with h1 | h1
        · by_cases hmk : markOk = true
          · rw [if_pos hmk] at h1
            rcases db_ids_mark_sub db (row_of d') x h1 with h2 | h2
            · exact Or.inl h2
            · exact Or.inr (Or.inl (by simpa [row_of] using h2))
          · rw [if_neg hmk] at h1
            exact Or.inl h1
        · exact Or.inr (Or.inr h1)

/-- notify_user only attempts deliveries of deals from its input list. -/
lemma notify_attempted_sub (wasOk markOk : Bool) (f : Deal → Bool) (d : Deal) :
    ∀ (ds : List Deal) (sent : ℕ) (db : List SeenRow),
      d ∈ (notify_user wasOk markOk f sent db ds).attempted → d ∈ ds := by
  intro ds
  induction ds with
  | nil => intro sent db h; rw [notify_user_nil] at h; simp at h
  | cons d' ds ih =>
    intro sent db h
    by_cases hcap : MAX_DEALS_PER_USER ≤ sent
    · rw [notify_user_cons_break _ _ _ _ _ _ _ hcap] at h
      simp at h
    · by_cases hskip : (wasOk && was_deal_seen db (hash_deal d')) = true
      · rw [notify_user_cons_skip _ _ _ _ _ _ _ hcap hskip] at h
        exact List.mem_cons_of_mem d' (ih sent db h)
      · have hskip' : (wasOk && was_deal_seen db (hash_deal d')) = false := by
          simpa using hskip
        rw [notify_user_cons_go _ _ _ _ _ _ _ hcap hskip'] at h
        simp only [List.mem_cons] at h
        rcases h with h | h
        · exact h ▸ List.mem_cons_self d' ds
        · exact List.mem_cons_of_mem d' (ih _ _ h)

/-- The number of successful deliveries in one notify_user run is bounded by
    the distance from the running counter to the per-user cap. -/
lemma notify_sent_length (wasOk markOk : Bool) (f : Deal → Bool) :
    ∀ (ds : List Deal) (sent : ℕ) (db : List SeenRow),
      (notify_user wasOk markOk f sent db ds).sent.length
        ≤ MAX_DEALS_PER_USER - sent := by
  intro ds
  induction ds with
  | nil => intro sent db; simp [notify_user_nil]
  | cons d' ds ih =>
    intro sent db
    by_cases hcap : MAX_DEALS_PER_USER ≤ sent
    · rw [notify_user_cons_break _ _ _ _ _ _ _ hcap]
      simp
    · by_cases hskip : (wasOk && was_deal_seen db (hash_deal d')) = true
      · rw [notify_user_cons_skip _ _ _ _ _ _ _ hcap hskip]
        exact ih sent db
      · have hskip' : (wasOk && was_deal_seen db (hash_deal d')) = false := by
          simpa using hskip
        rw [notify_user_cons_go _ _ _ _ _ _ _ hcap hskip']
        simp only [List.length_append]
        by_cases hsend : f d' = true
        · have hrec := ih (sent + 1) (if markOk then mark_deal_seen db (row_of d') else db)
          simp only [hsend, eq_self_iff_true, if_true, List.length_cons, List.length_nil]
          omega
        · have hsend' : f d' = false := by simpa using hsend
          have hrec := ih sent (if markOk then mark_deal_seen db (row_of d') else db)
          simp only [hsend', Bool.false_eq_true, if_false, List.length_nil]
          omega

/-- Once the success counter has reached the cap, notify_user processes
    nothing: the ledger is untouched and nothing is sent or attempted. -/
lemma notify_break (wasOk markOk : Bool) (f : Deal → Bool)
    (ds : List Deal) (sent : ℕ) (db : List SeenRow)
    (hcap : MAX_DEALS_PER_USER ≤ sent) :
    notify_user wasOk markOk f sent db ds = ⟨db, [], []⟩ := by
  cases ds with
  | nil => exact notify_user_nil _ _ _ _ _
  | cons d' ds => exact notify_user_cons_break _ _ _ _ _ _ _ hcap

/-! ## scanner_tick lemmas -/

/-- Unfolding equation: no users. -/
lemma scanner_tick_nil (wasOk markOk : Bool) (f : ℕ → Deal → Bool)
    (deals : List Deal) (db : List SeenRow) :
    scanner_tick wasOk markOk f deals [] db = ⟨db, [], []⟩ := rfl

/-- Unfolding equation: nothing survives this user filter, move on. -/
lemma scanner_tick_cons_empty (wasOk markOk : Bool) (f : ℕ → Deal → Bool)
    (deals : List Deal) (uid : ℕ) (st : ScannerSettings)
    (users : List (ℕ × ScannerSettings)) (db : List SeenRow)
    (h : (select_deals deals st).isEmpty = true) :
    scanner_tick wasOk markOk f deals ((uid, st) :: users) db =
      scanner_tick wasOk markOk f deals users db := by
  simp [scanner_tick, h]

/-- Unfolding equation: some deals survive, notify this user and thread the
    ledger to the remaining users. -/
lemma scanner_tick_cons_go (wasOk markOk : Bool) (f : ℕ → Deal → Bool)
    (deals : List Deal) (uid : ℕ) (st : ScannerSettings)
    (users : List (ℕ × ScannerSettings)) (db : List SeenRow)
    (h : (select_deals deals st).isEmpty = false) :
    scanner_tick wasOk markOk f deals ((uid, st) :: users) db =
      ⟨(scanner_tick wasOk markOk f deals users
          (notify_user wasOk markOk (f uid) 0 db (select_deals deals st)).db).db,
        (notify_user wasOk markOk (f uid) 0 db (select_deals deals st)).sent.map
            (fun d => (uid, d))
          ++ (scanner_tick wasOk markOk f deals users
              (notify_user wasOk markOk (f uid) 0 db (select_deals deals st)).db).sent,
        (notify_user wasOk markOk (f uid) 0 db (select_deals deals st)).attempted.map
            (fun d => (uid, d))
          ++ (scanner_tick wasOk markOk f deals users
              (notify_user wasOk markOk (f uid) 0 db
                (select_deals deals st)).db).attempted⟩ := by
  simp [scanner_tick, h]

/-- The ledger after a tick still knows every identity it knew before. -/
lemma tick_db_mono (wasOk markOk : Bool) (f : ℕ → Deal → Bool)
    (deals : List Deal) (x : String) :
    ∀ (users : List (ℕ × ScannerSettings)) (db : List SeenRow),
      was_deal_seen db x = true →
      was_deal_seen (scanner_tick wasOk markOk f deals users db).db x = true := by
  intro users
  induction users with
  | nil => intro db h; rw [scanner_tick_nil]; exact h
  | cons u users ih =>
    intro db h
    obtain ⟨uid, st⟩ := u
    by_cases hemp : (select_deals deals st).isEmpty = true
    · rw [scanner_tick_cons_empty _ _ _ _ _ _ _ _ hemp]
      exact ih db h
    · have hemp' : (select_deals deals st).isEmpty = false := by simpa using hemp
      rw [scanner_tick_cons_go _ _ _ _ _ _ _ _ hemp']
      exact ih _ (notify_db_mono wasOk markOk (f uid) x (select_deals deals st) 0 db h)

/-- With working ledger reads, a tick never delivers a deal whose identity the
    ledger already contains, to any user. -/
lemma tick_seen_not_sent (markOk : Bool) (f : ℕ → Deal → Bool)
    (deals : List Deal) (d : Deal) (uid : ℕ) :
    ∀ (users : List (ℕ × ScannerSettings)) (db : List SeenRow),
      was_deal_seen db (hash_deal d) = true →
      (uid, d) ∉ (scanner_tick true markOk f deals users db).sent := by
  intro users
  induction users with
  | nil => intro db _ hmem; rw [scanner_tick_nil] at hmem; simp at hmem
  | cons u users ih =>
    intro db h hmem
    obtain ⟨uid', st⟩ := u
    by_cases hemp : (select_deals deals st).isEmpty = true
    · rw [scanner_tick_cons_empty _ _ _ _ _ _ _ _ hemp] at hmem
      exact ih db h hmem
    · have hemp' : (select_deals deals st).isEmpty = false := by simpa using hemp
      rw [scanner_tick_cons_go _ _ _ _ _ _ _ _ hemp'] at hmem
      simp only [List.mem_append, List.mem_map] at hmem
      rcases hmem with ⟨d', hd', he⟩ | hmem
      · have : d' = d := congrArg Prod.snd he
        exact notify_seen_not_sent markOk (f uid') d (select_deals deals st) 0 db h
          (this ▸ hd')
      · exact ih _ (notify_db_mono true markOk (f uid') (hash_deal d)
          (select_deals deals st) 0 db h) hmem

/-- With working ledger reads, every (user, deal) pair a tick delivers has a
    fingerprint the pre-cycle ledger did not contain: the ledger is consulted
    before a deal is eligible to be sent to anyone. -/
lemma tick_sent_unseen (markOk : Bool) (f : ℕ → Deal → Bool)
    (deals : List Deal) (d : Deal) (uid : ℕ)
    (users : List (ℕ × ScannerSettings)) (db : List SeenRow)
    (hmem : (uid, d) ∈ (scanner_tick true markOk f deals users db).sent) :
    was_deal_seen db (hash_deal d) = false := by
  by_cases hseen : was_deal_seen db (hash_deal d) = true
  · exact absurd hmem (tick_seen_not_sent markOk f deals d uid users db hseen)
  · exact Bool.eq_false_iff.mpr (fun hc => hseen hc)

/-- Every identity in the ledger after a tick was already there or belongs to
    a deal some user got a delivery attempt for in this tick. -/
lemma tick_ids_from_attempts (wasOk markOk : Bool) (f : ℕ → Deal → Bool)
    (deals : List Deal) (x : String) :
    ∀ (users : List (ℕ × ScannerSettings)) (db : List SeenRow),
      x ∈ db_ids (scanner_tick wasOk markOk f deals users db).db →
      x ∈ db_ids db ∨
        x ∈ (scanner_tick wasOk markOk f deals users db).attempted.map
          (fun p => hash_deal p.2) := by
  intro users
  induction users with
  | nil => intro db h; rw [scanner_tick_nil] at h ⊢; exact Or.inl h
  | cons u users ih =>
    intro db h
    obtain ⟨uid, st⟩ := u
    by_cases hemp : (select_deals deals st).isEmpty = true
    · rw [scanner_tick_cons_empty _ _ _ _ _ _ _ _ hemp] at h ⊢
      exact ih db h
    · have hemp' : (select_deals deals st).isEmpty = false := by simpa using hemp
      rw [scanner_tick_cons_go _ _ _ _ _ _ _ _ hemp'] at h ⊢
      simp only [List.map_append, List.mem_append, List.map_map] at *
      rcases ih _ h with h1 | h1
      · rcases notify_ids_from_attempts wasOk markOk (f uid) x
            (select_deals deals st) 0 db h1 with h2 | h2
        · exact Or.inl h2
        · refine Or.inr (Or.inl ?_)
          simpa [Function.comp] using h2
      · exact Or.inr (Or.inr h1)

/-- A deal that matches no user filter in this tick is never attempted for
    anyone in this tick. -/
lemma tick_nomatch_not_attempted (wasOk markOk : Bool) (f : ℕ → Deal → Bool)
    (deals : List Deal) (d : Deal)
    (users : List (ℕ × ScannerSettings))
    (hnm : ∀ p ∈ users, passes_filters d p.2 = false) (uid : ℕ) :
    ∀ (db : List SeenRow),
      (uid, d) ∉ (scanner_tick wasOk markOk f deals users db).attempted := by
  induction users with
  | nil => intro db hmem; rw [scanner_tick_nil] at hmem; simp at hmem
  | cons u users ih =>
    intro db hmem
    obtain ⟨uid', st⟩ := u
    have hnm' : ∀ p ∈ users, passes_filters d p.2 = false := by
      intro p hp; exact hnm p (List.mem_cons_of_mem _ hp)
    by_cases hemp : (select_deals deals st).isEmpty = true
    · rw [scanner_tick_cons_empty _ _ _ _ _ _ _ _ hemp] at hmem
      exact ih hnm' db hmem
    · have hemp' : (select_deals deals st).isEmpty = false := by simpa using hemp
      rw [scanner_tick_cons_go _ _ _ _ _ _ _ _ hemp'] at hmem
      simp only [List.mem_append, List.mem_map] at hmem
      rcases hmem with ⟨d', hd', he⟩ | hmem
      · have hdd : d' = d := congrArg Prod.snd he
        subst hdd
        have hsel := notify_attempted_sub wasOk markOk (f uid') d'
          (select_deals deals st) 0 db hd'
        have hpass : passes_filters d' st = true := by
          have := List.mem_filter.mp hsel
          exact this.2
        have := hnm (uid', st) (List.mem_cons_self _ _)
        simp [hpass] at this
      · exact ih hnm' _ hmem

/-! ## Aggregator lemmas -/

/-- The merged batch is an order-preserving sublist of the concatenation. -/
lemma dedup_sublist : ∀ (l : List Deal) (seen : List DealKey),
    (dedup_by_key seen l).Sublist l := by
  intro l
  induction l with
  | nil => intro seen; simp [dedup_by_key]
  | cons d ds ih =>
    intro seen
    by_cases hk : deal_key d ∈ seen
    · simp only [dedup_by_key, if_pos hk]
      exact (ih seen).cons d
    · simp only [dedup_by_key, if_neg hk]
      exact (ih (deal_key d :: seen)).cons₂ d

/-- No element surviving the merge carries a key from the accumulator. -/
lemma dedup_not_seen : ∀ (l : List Deal) (seen : List DealKey) (d : Deal),
    d ∈ dedup_by_key seen l → deal_key d ∉ seen := by
  intro l
  induction l with
  | nil => intro seen d h; simp [dedup_by_key] at h
  | cons d' ds ih =>
    intro seen d h
    by_cases hk : deal_key d' ∈ seen
    · rw [dedup_by_key, if_pos hk] at h
      exact ih seen d h
    · rw [dedup_by_key, if_neg hk] at h
      rcases List.mem_cons.mp h with h1 | h1
      · exact h1 ▸ hk
      · intro hs
        exact ih (deal_key d' :: seen) d h1 (List.mem_cons_of_mem _ hs)

/-- The keys surviving the merge are exactly the batch keys outside the
    accumulator. -/
lemma dedup_keys_mem : ∀ (l : List Deal) (seen : List DealKey) (k : DealKey),
    k ∈ (dedup_by_key seen l).map deal_key ↔
      (k ∉ seen ∧ k ∈ l.map deal_key) := by
  intro l
  induction l with
  | nil => intro seen k; simp [dedup_by_key]
  | cons d ds ih =>
    intro seen k
    by_cases hk : deal_key d ∈ seen
    · rw [dedup_by_key, if_pos hk, ih seen k]
      simp only [List.map_cons, List.mem_cons]
      constructor
      · rintro ⟨h1, h2⟩; exact ⟨h1, Or.inr h2⟩
      · rintro ⟨h1, h2 | h2⟩
        · exact absurd (h2 ▸ hk) h1
        · exact ⟨h1, h2⟩
    · rw [dedup_by_key, if_neg hk]
      simp only [List.map_cons, List.mem_cons, ih (deal_key d :: seen) k]
      by_cases hkd : k = deal_key d
      · subst hkd
        simp [hk]
      · simp only [hkd, false_or]

/-- Each key appears at most once after the merge. -/
lemma dedup_keys_nodup : ∀ (l : List Deal) (seen : List DealKey),
    ((dedup_by_key seen l).map deal_key).Nodup := by
  intro l
  induction l with
  | nil => intro seen; simp [dedup_by_key]
  | cons d ds ih =>
    intro seen
    by_cases hk : deal_key d ∈ seen
    · rw [dedup_by_key, if_pos hk]
      exact ih seen
    · rw [dedup_by_key, if_neg hk]
      simp only [List.map_cons, List.nodup_cons]
      refine ⟨fun hmem => ?_, ih (deal_key d :: seen)⟩
      exact ((dedup_keys_mem ds (deal_key d :: seen) (deal_key d)).mp hmem).1
        (List.mem_cons_self _ _)

/-- Each survivor of the merge is the first element of the batch carrying its
    key: in a key collision the first seen wins. -/
lemma dedup_first : ∀ (l : List Deal) (seen : List DealKey) (d : Deal),
    d ∈ dedup_by_key seen l →
    (l.filter (fun x => decide (deal_key x = deal_key d))).head? = some d := by
  intro l
  induction l with
  | nil => intro seen d h; simp [dedup_by_key] at h
  | cons d' ds ih =>
    intro seen d h
    by_cases hk : deal_key d' ∈ seen
    · rw [dedup_by_key, if_pos hk] at h
      have hne : deal_key d ≠ deal_key d' := by
        intro he
        exact dedup_not_seen ds seen d h (he ▸ hk)
      rw [List.filter_cons]
      rw [if_neg (by simpa using fun he => hne he.symm)]
      exact ih seen d h
    · rw [dedup_by_key, if_neg hk] at h
      rcases List.mem_cons.mp h with h1 | h1
      · subst h1
        rw [List.filter_cons, if_pos (by simp)]
        rfl
      · have hnot := dedup_not_seen ds (deal_key d' :: seen) d h1
        have hne : deal_key d ≠ deal_key d' := by
          intro he
          exact hnot (he ▸ List.mem_cons_self _ _)
        rw [List.filter_cons]
        rw [if_neg (by simpa using fun he => hne he.symm)]
        exact ih (deal_key d' :: seen) d h1

/-- A batch whose keys are fresh and pairwise distinct passes the merge
    unchanged. -/
lemma dedup_of_nodup : ∀ (l : List Deal) (seen : List DealKey),
    (∀ k ∈ l.map deal_key, k ∉ seen) → (l.map deal_key).Nodup →
    dedup_by_key seen l = l := by
  intro l
  induction l with
  | nil => intro seen _ _; rfl
  | cons d ds ih =>
    intro seen hfresh hnd
    have hk : deal_key d ∉ seen := hfresh _ (by simp)
    rw [dedup_by_key, if_neg hk]
    congr 1
    refine ih (deal_key d :: seen) ?_ ?_
    · intro k hkmem hks
      rcases List.mem_cons.mp hks with h1 | h1
      · rw [List.map_cons, List.nodup_cons] at hnd
        exact hnd.1 (h1 ▸ hkmem)
      · exact hfresh k (by simp [hkmem]) h1
    · rw [List.map_cons, List.nodup_cons] at hnd
      exact hnd.2

/-- Merging a merged batch changes nothing. -/
lemma dedup_idem (l : List Deal) :
    dedup_by_key [] (dedup_by_key [] l) = dedup_by_key [] l := by
  refine dedup_of_nodup _ _ ?_ (dedup_keys_nodup l [])
  intro k _ hk
  simp at hk

/-- fetch all sources is the first-wins merge of the concatenated adapter
    outputs (collecting only non-empty outputs does not change the result). -/
lemma fetch_all_sources_eq (ton gg : List Deal) :
    fetch_all_sources ton gg = dedup_by_key [] (ton ++ gg) := by
  unfold fetch_all_sources
  by_cases ht : ton.isEmpty = true
  · have : ton = [] := List.isEmpty_iff.mp ht
    subst this
    by_cases hg : gg.isEmpty = true
    · have : gg = [] := List.isEmpty_iff.mp hg
      subst this
      simp
    · have hg' : gg.isEmpty = false := by simpa using hg
      simp [ht, hg']
  · have ht' : ton.isEmpty = false := by simpa using ht
    by_cases hg : gg.isEmpty = true
    · have : gg = [] := List.isEmpty_iff.mp hg
      subst this
      simp [ht']
    · have hg' : gg.isEmpty = false := by simpa using hg
      simp [ht', hg']

/-! ## Claim C1 -/

/-- C1: for every listing with known floor > 0 and known price > 0 the
    computed discount percentage equals (floor - price) / floor * 100 clamped
    from below at 0, hence the discount value is never negative; in the
    handlers.py variant, any item it exposes as a match under a nonnegative
    threshold likewise carries a nonnegative discount. -/
theorem c1_discount_formula_clamped (d : Deal) (f p : ℚ)
    (hfair : fair_of d = some f) (hf : 0 < f)
    (hp : d.price_ton = some p) (hp0 : 0 < p) :
    calc_discount_pct d = max 0 ((f - p) / f * 100) ∧
    0 ≤ calc_discount_pct d ∧
    (∀ (now : ℤ) (it : Item) (st : StRow) (q : ℚ), 0 ≤ st.min_discount →
      item_matches now it st = true → item_discount it = some q → 0 ≤ q) := by
  have hpr : price_of d = p := by simp [price_of, hp]
  have h1 : calc_discount_pct d = max 0 ((1 - p / f) * 100) := by
    simp [calc_discount_pct, hfair, hf, hpr]
  have hfne : f ≠ 0 := ne_of_gt hf
  have harith : (1 - p / f) * 100 = (f - p) / f * 100 := by
    field_simp
  refine ⟨by rw [h1, harith], by rw [h1]; exact le_max_left _ _, ?_⟩
  intro now it st q hmin hmatch hdisc
  unfold item_matches at hmatch
  rw [hdisc] at hmatch
  by_cases hfresh : item_fresh_enough now it = true
  · simp only [hfresh, Bool.not_true, Bool.false_eq_true, if_false] at hmatch
    by_cases hlt : q < st.min_discount
    · rw [if_pos hlt] at hmatch
      simp at hmatch
    · linarith [not_lt.mp hlt]
  · have hfresh' : item_fresh_enough now it = false := by simpa using hfresh
    simp [hfresh'] at hmatch

def c1_deal : Deal := { fair_price_ton := some 10, price_ton := some (15 / 2) }

/-- Witness for C1: floor 10 and price 7.5 give discount 25, nonnegative. -/
theorem c1_discount_formula_clamped_witness :
    calc_discount_pct c1_deal = 25 ∧ 0 ≤ calc_discount_pct c1_deal := by
  have h := c1_discount_formula_clamped c1_deal 10 (15 / 2)
    (by norm_num [fair_of, orQ, c1_deal]) (by norm_num) rfl (by norm_num)
  refine ⟨?_, h.2.1⟩
  rw [h.1]
  norm_num [max_def]

/-! ## Claim C4 -/

def c4_settings : ScannerSettings := { min_discount := some 25 }

def c4_low : Deal := { id := some "a", fair_price_ton := some 10, price_ton := some 7 }

def c4_high : Deal := { id := some "b", fair_price_ton := some 10, price_ton := some 5 }

/-- C4 counterexample: the surviving set is NOT ordered by descending
    discount: a batch listing the 30 percent deal before the 50 percent deal
    survives in that same order. -/
theorem c4_counterexample_not_sorted :
    select_deals [c4_low, c4_high] c4_settings = [c4_low, c4_high] ∧
    calc_discount_pct c4_low < calc_discount_pct c4_high := by
  have h1 : passes_filters c4_low c4_settings = true := by
    norm_num [passes_filters, discount_ok, min_price_ok, max_price_ok, collections_ok,
      calc_discount_pct, fair_of, orQ, price_of, min_disc_of, eps, c4_low, c4_settings,
      max_def]
  have h2 : passes_filters c4_high c4_settings = true := by
    norm_num [passes_filters, discount_ok, min_price_ok, max_price_ok, collections_ok,
      calc_discount_pct, fair_of, orQ, price_of, min_disc_of, eps, c4_high, c4_settings,
      max_def]
  refine ⟨by simp [select_deals, h1, h2], ?_⟩
  norm_num [calc_discount_pct, fair_of, orQ, price_of, c4_low, c4_high, max_def]

/-- C4 amended: the matcher applies no sort at all; the surviving candidate
    set is the order-preserving sublist of the batch whose members pass the
    user filters, hence deterministic given identical input, with ties (and
    everything else) kept in original batch order. -/
theorem c4_amended_batch_order (deals : List Deal) (st : ScannerSettings) :
    (select_deals deals st).Sublist deals ∧
    (∀ d : Deal, d ∈ select_deals deals st ↔ d ∈ deals ∧ passes_filters d st = true) :=
  ⟨List.filter_sublist deals, fun d => by simp [select_deals, List.mem_filter]⟩

/-- Witness for the amended C4 at a concrete batch. -/
theorem c4_amended_batch_order_witness :
    (select_deals [c4_low, c4_high] c4_settings).Sublist [c4_low, c4_high] :=
  (c4_amended_batch_order [c4_low, c4_high] c4_settings).1

/-! ## Claim C5 -/

def c5_deal : Deal := { price_ton := none, fair_price_ton := some 10 }

def c5_settings : ScannerSettings := { min_discount := some 25, max_price_ton := some 5 }

/-- C5 counterexample: a listing with unknown price is NOT rejected by the
    scanner filter under max_price 5 - it passes, its price read as 0 and its
    discount read as 100 percent. -/
theorem c5_counterexample_unknown_price_passes :
    c5_deal.price_ton = none ∧ c5_settings.max_price_ton = some 5 ∧
    passes_filters c5_deal c5_settings = true := by
  refine ⟨rfl, rfl, ?_⟩
  norm_num [passes_filters, discount_ok, min_price_ok, max_price_ok, collections_ok,
    calc_discount_pct, fair_of, orQ, price_of, min_disc_of, eps, c5_deal, c5_settings,
    max_def]

/-- C5 amended: with max_price set to m, a known price p passes the scanner
    ceiling exactly when p is at most m + 1e-9, and an unknown price is
    coerced to 0 and subjected to the same test at 0 (so it passes any
    nonnegative ceiling instead of being rejected); the handlers.py variant,
    by contrast, rejects an explicit null price whenever max_price is set. -/
theorem c5_amended_price_ceiling (st : ScannerSettings) (m : ℚ)
    (hst : st.max_price_ton = some m) :
    (∀ p : ℚ, max_price_ok p st = decide (p ≤ m + eps)) ∧
    (∀ d : Deal, d.price_ton = none →
      max_price_ok (price_of d) st = decide ((0 : ℚ) ≤ m + eps)) ∧
    (∀ (now : ℤ) (it : Item) (st2 : StRow) (m2 : ℚ), it.price_ton = some none →
      st2.max_price_ton = some m2 → item_matches now it st2 = false) := by
  have hmain : ∀ p : ℚ, max_price_ok p st = decide (p ≤ m + eps) := by
    intro p
    simp only [max_price_ok, hst]
    rw [← decide_not, decide_eq_decide]
    constructor
    · intro h
      have := not_lt.mp h
      linarith
    · intro h hgt
      linarith
  refine ⟨hmain, ?_, ?_⟩
  · intro d hd
    have : price_of d = 0 := by simp [price_of, hd]
    rw [this, hmain 0]
  · intro now it st2 m2 hpn hmax
    by_cases hfresh : item_fresh_enough now it = true
    · cases hd : item_discount it with
      | none => simp [item_matches, hfresh, hd]
      | some disc =>
        by_cases hlt : disc < st2.min_discount
        · simp [item_matches, hfresh, hd, hlt]
        · simp [item_matches, hfresh, hd, hlt, hmax, hpn]
    · have hfresh' : item_fresh_enough now it = false := by simpa using hfresh
      simp [item_matches, hfresh']

/-- Witness for the amended C5: the unknown-price deal is tested at 0 against
    ceiling 5. -/
theorem c5_amended_price_ceiling_witness :
    max_price_ok (price_of c5_deal) c5_settings = decide ((0 : ℚ) ≤ 5 + eps) :=
  (c5_amended_price_ceiling c5_settings 5 rfl).2.1 c5_deal rfl

/-! ## Claim C6 -/

def c6_item : Item := { price_ton := some (some 5) }

def c6_strow : StRow := { min_discount := 0 }

/-- C6 counterexample: an item with unknown discount under threshold 0 must
    be accepted by the claim (unknown and min at most 0) but the handlers.py
    matcher rejects it. -/
theorem c6_counterexample_unknown_discount :
    item_discount c6_item = none ∧ c6_strow.min_discount = 0 ∧
    item_matches 0 c6_item c6_strow = false := by
  refine ⟨rfl, rfl, ?_⟩
  simp [item_matches, item_discount, item_fresh_enough, c6_item, c6_strow]

def c6_deal : Deal := { }

def c6_ssettings : ScannerSettings := { min_discount := some 20 }

/-- C6 amended: the handlers.py matcher propagates an unknown discount as
    None and rejects it unconditionally, even under a threshold of at most 0;
    the scanner.py filter instead defaults an unknown discount to 0 and its
    discount stage accepts exactly when min_discount is at most discount +
    1e-9, so an all-unknown listing is accepted exactly when min_discount is
    at most 1e-9. -/
theorem c6_amended_discount_filter :
    (∀ (now : ℤ) (it : Item) (st : StRow),
      item_discount it = none → item_matches now it st = false) ∧
    (∀ (d : Deal) (st : ScannerSettings),
      discount_ok d st = decide (min_disc_of st ≤ calc_discount_pct d + eps)) ∧
    (∀ (d : Deal) (st : ScannerSettings), fair_of d = none → d.discount_pct = none →
      calc_discount_pct d = 0 ∧ discount_ok d st = decide (min_disc_of st ≤ eps)) := by
  have hscan : ∀ (d : Deal) (st : ScannerSettings),
      discount_ok d st = decide (min_disc_of st ≤ calc_discount_pct d + eps) := by
    intro d st
    simp only [discount_ok]
    rw [← decide_not, decide_eq_decide]
    exact not_lt
  refine ⟨?_, hscan, ?_⟩
  · intro now it st hd
    by_cases hfresh : item_fresh_enough now it = true
    · simp [item_matches, hfresh, hd]
    · have hfresh' : item_fresh_enough now it = false := by simpa using hfresh
      simp [item_matches, hfresh']
  · intro d st hfair hdp
    have hc : calc_discount_pct d = 0 := by
      simp [calc_discount_pct, hfair, hdp]
    exact ⟨hc, by rw [hscan d st, hc, zero_add]⟩

/-- Witness for the amended C6: the all-unknown deal has discount defaulted
    to 0, and an item with unknown discount is rejected. -/
theorem c6_amended_discount_filter_witness :
    (calc_discount_pct c6_deal = 0 ∧
      discount_ok c6_deal c6_ssettings = decide (min_disc_of c6_ssettings ≤ eps)) ∧
    item_matches 5 c6_item c6_strow = false :=
  ⟨c6_amended_discount_filter.2.2 c6_deal c6_ssettings rfl rfl,
   c6_amended_discount_filter.1 5 c6_item c6_strow rfl⟩

/-! ## Claim C2 -/

/-- C2: once a fingerprint is marked seen, was-seen reads true, marking is
    persistent, every tick preserves recorded fingerprints, and (with working
    ledger reads) a tick never delivers a deal whose fingerprint is already
    recorded to any user - in particular an identical deal at the same price
    in a later cycle produces no second notification. -/
theorem c2_seen_once_never_renotified :
    (∀ (db : List SeenRow) (row : SeenRow),
      was_deal_seen (mark_deal_seen db row) row.deal_id = true) ∧
    (∀ (db : List SeenRow) (row : SeenRow) (x : String),
      was_deal_seen db x = true → was_deal_seen (mark_deal_seen db row) x = true) ∧
    (∀ (wasOk markOk : Bool) (f : ℕ → Deal → Bool) (deals : List Deal)
      (users : List (ℕ × ScannerSettings)) (db : List SeenRow) (x : String),
      was_deal_seen db x = true →
      was_deal_seen (scanner_tick wasOk markOk f deals users db).db x = true) ∧
    (∀ (markOk : Bool) (f : ℕ → Deal → Bool) (deals : List Deal)
      (users : List (ℕ × ScannerSettings)) (db : List SeenRow) (d : Deal) (uid : ℕ),
      was_deal_seen db (hash_deal d) = true →
      (uid, d) ∉ (scanner_tick true markOk f deals users db).sent) :=
  ⟨was_deal_seen_mark_self,
   fun db row x h => was_deal_seen_mark db row x h,
   fun wasOk markOk f deals users db x h => tick_db_mono wasOk markOk f deals x users db h,
   fun markOk f deals users db d uid h => tick_seen_not_sent markOk f deals d uid users db h⟩

def c2_deal : Deal :=
  { id := some "x", nft_address := some "EQx", market := some "T",
    fair_price_ton := some 10, price_ton := some 7 }

def c2_settings : ScannerSettings := { min_discount := some 25 }

lemma c2_pass : passes_filters c2_deal c2_settings = true := by
  norm_num [passes_filters, discount_ok, min_price_ok, max_price_ok, collections_ok,
    calc_discount_pct, fair_of, orQ, price_of, min_disc_of, eps, c2_deal, c2_settings,
    max_def]

lemma c2_tick1_eq :
    scanner_tick true true (fun _ _ => true) [c2_deal] [(1, c2_settings)] [] =
      ⟨[row_of c2_deal], [(1, c2_deal)], [(1, c2_deal)]⟩ := by
  simp [scanner_tick, select_deals, c2_pass, notify_user, MAX_DEALS_PER_USER,
    was_deal_seen, mark_deal_seen]

lemma c2_seen1 :
    was_deal_seen
      (scanner_tick true true (fun _ _ => true) [c2_deal] [(1, c2_settings)] []).db
      (hash_deal c2_deal) = true := by
  rw [c2_tick1_eq]
  simp [was_deal_seen, row_of]

/-- Witness for C2, scenario D: cycle 1 delivers deal X to user 1; cycle 2 on
    the resulting ledger, with the identical deal at the same price, delivers
    nothing to user 1. -/
theorem c2_seen_once_never_renotified_witness :
    (1, c2_deal) ∈
      (scanner_tick true true (fun _ _ => true) [c2_deal] [(1, c2_settings)] []).sent ∧
    (1, c2_deal) ∉
      (scanner_tick true true (fun _ _ => true) [c2_deal] [(1, c2_settings)]
        (scanner_tick true true (fun _ _ => true) [c2_deal]
          [(1, c2_settings)] []).db).sent := by
  refine ⟨by rw [c2_tick1_eq]; simp, ?_⟩
  exact c2_seen_once_never_renotified.2.2.2 true (fun _ _ => true) [c2_deal]
    [(1, c2_settings)] _ c2_deal 1 c2_seen1

/-! ## Claim C3 -/

/-- C3: in a tick with working ledger reads, every delivered deal was unseen
    in the pre-cycle ledger (was-seen gates eligibility for every user), every
    fingerprint newly recorded in this tick belongs to a deal that got a
    delivery attempt this tick (mark only after attempt), and a deal matching
    no user filter is never attempted - so it stays eligible for a later cycle
    in which some user has relaxed filters. -/
theorem c3_mark_seen_policy (markOk : Bool) (f : ℕ → Deal → Bool)
    (deals : List Deal) (users : List (ℕ × ScannerSettings)) (db : List SeenRow) :
    (∀ (uid : ℕ) (d : Deal),
      (uid, d) ∈ (scanner_tick true markOk f deals users db).sent →
      was_deal_seen db (hash_deal d) = false) ∧
    (∀ x : String, x ∈ db_ids (scanner_tick true markOk f deals users db).db →
      x ∈ db_ids db ∨
        x ∈ (scanner_tick true markOk f deals users db).attempted.map
          (fun p => hash_deal p.2)) ∧
    (∀ d : Deal, (∀ p ∈ users, passes_filters d p.2 = false) →
      ∀ uid : ℕ, (uid, d) ∉ (scanner_tick true markOk f deals users db).attempted) :=
  ⟨fun uid d h => tick_sent_unseen markOk f deals d uid users db h,
   fun x h => tick_ids_from_attempts true markOk f deals x users db h,
   fun d hnm uid => tick_nomatch_not_attempted true markOk f deals d users hnm uid db⟩

def c3_deal : Deal := { id := some "y", fair_price_ton := some 10, price_ton := some 7 }

def c3_strict : ScannerSettings := { min_discount := some 90 }

def c3_relaxed : ScannerSettings := { min_discount := some 25 }

lemma c3_fail_strict : passes_filters c3_deal c3_strict = false := by
  norm_num [passes_filters, discount_ok, min_price_ok, max_price_ok, collections_ok,
    calc_discount_pct, fair_of, orQ, price_of, min_disc_of, eps, c3_deal, c3_strict,
    max_def]

lemma c3_pass_relaxed : passes_filters c3_deal c3_relaxed = true := by
  norm_num [passes_filters, discount_ok, min_price_ok, max_price_ok, collections_ok,
    calc_discount_pct, fair_of, orQ, price_of, min_disc_of, eps, c3_deal, c3_relaxed,
    max_def]

/-- Witness for C3, scenario E: with only a strict user the deal is never
    attempted (hence never marked); after the user relaxes filters, a later
    cycle on an untouched ledger delivers it. -/
theorem c3_mark_seen_policy_witness :
    (1, c3_deal) ∉
      (scanner_tick true true (fun _ _ => true) [c3_deal] [(1, c3_strict)] []).attempted ∧
    (1, c3_deal) ∈
      (scanner_tick true true (fun _ _ => true) [c3_deal] [(1, c3_relaxed)] []).sent := by
  constructor
  · refine (c3_mark_seen_policy true (fun _ _ => true) [c3_deal]
      [(1, c3_strict)] []).2.2 c3_deal ?_ 1
    intro p hp
    have : p = (1, c3_strict) := by simpa using hp
    rw [this]
    exact c3_fail_strict
  · simp [scanner_tick, select_deals, c3_pass_relaxed, notify_user, MAX_DEALS_PER_USER,
      was_deal_seen, mark_deal_seen]

/-! ## Claim C7 -/

/-- C7: the aggregator output carries each identity key exactly once, is an
    order-preserving sublist of the concatenated adapter outputs, loses no
    key, keeps the first occurrence of each key (first seen in this batch
    wins), and is idempotent; fetch all sources is exactly this merge of the
    concatenated adapter outputs. -/
theorem c7_aggregator_dedup (l : List Deal) :
    ((dedup_by_key [] l).map deal_key).Nodup ∧
    (dedup_by_key [] l).Sublist l ∧
    (∀ d ∈ l, deal_key d ∈ (dedup_by_key [] l).map deal_key) ∧
    (∀ d ∈ dedup_by_key [] l,
      (l.filter (fun x => decide (deal_key x = deal_key d))).head? = some d) ∧
    dedup_by_key [] (dedup_by_key [] l) = dedup_by_key [] l ∧
    (∀ ton gg : List Deal, fetch_all_sources ton gg = dedup_by_key [] (ton ++ gg)) := by
  refine ⟨dedup_keys_nodup l [], dedup_sublist l [], ?_, ?_, dedup_idem l,
    fetch_all_sources_eq⟩
  · intro d hd
    exact (dedup_keys_mem l [] (deal_key d)).mpr ⟨by simp, List.mem_map_of_mem _ hd⟩
  · intro d hd
    exact dedup_first l [] d hd

def c7_a : Deal := { id := some "k", market := some "M" }

def c7_a2 : Deal := { id := some "k", market := some "M", url := some "u2" }

def c7_b : Deal := { id := some "l", market := some "M" }

/-- Witness for C7 on a batch with a key collision: keys stay nodup, the
    collided key survives, and the first occurrence is the survivor. -/
theorem c7_aggregator_dedup_witness :
    ((dedup_by_key [] [c7_a, c7_a2, c7_b]).map deal_key).Nodup ∧
    deal_key c7_a2 ∈ (dedup_by_key [] [c7_a, c7_a2, c7_b]).map deal_key ∧
    ([c7_a, c7_a2, c7_b].filter
      (fun x => decide (deal_key x = deal_key c7_a))).head? = some c7_a := by
  refine ⟨(c7_aggregator_dedup [c7_a, c7_a2, c7_b]).1,
    (c7_aggregator_dedup [c7_a, c7_a2, c7_b]).2.2.1 c7_a2 (by simp), ?_⟩
  refine (c7_aggregator_dedup [c7_a, c7_a2, c7_b]).2.2.2.1 c7_a ?_
  simp [dedup_by_key, deal_key, c7_a, c7_a2, c7_b]

/-! ## Claim C8 -/

def c8_deal : Deal := { id := some "z", fair_price_ton := some 10, price_ton := some 7 }

/-- C8 counterexample: with the ledger unreachable (both the read and the
    write raise), notify user does NOT skip notification: it delivers a deal
    whose fingerprint the ledger already contains. -/
theorem c8_counterexample_sends_on_ledger_failure :
    was_deal_seen [row_of c8_deal] (hash_deal c8_deal) = true ∧
    (notify_user false false (fun _ => true) 0 [row_of c8_deal] [c8_deal]).sent
      = [c8_deal] := by
  constructor
  · simp [was_deal_seen, row_of]
  · simp [notify_user, MAX_DEALS_PER_USER]

/-- When the ledger read fails, deliveries do not depend on the ledger
    contents at all. -/
lemma notify_wasfail_sent_indep (markOk : Bool) (f : Deal → Bool) :
    ∀ (ds : List Deal) (sent : ℕ) (db db' : List SeenRow),
      (notify_user false markOk f sent db ds).sent
        = (notify_user false markOk f sent db' ds).sent := by
  intro ds
  induction ds with
  | nil => intro sent db db'; rw [notify_user_nil, notify_user_nil]
  | cons d ds ih =>
    intro sent db db'
    by_cases hcap : MAX_DEALS_PER_USER ≤ sent
    · rw [notify_user_cons_break _ _ _ _ _ _ _ hcap,
        notify_user_cons_break _ _ _ _ _ _ _ hcap]
    · rw [notify_user_cons_go _ _ _ _ _ _ _ hcap (by simp),
        notify_user_cons_go _ _ _ _ _ _ _ hcap (by simp)]
      simp only []
      rw [ih]

/-- When the ledger write fails, the ledger is left unchanged. -/
lemma notify_markfail_db_unchanged (wasOk : Bool) (f : Deal → Bool) :
    ∀ (ds : List Deal) (sent : ℕ) (db : List SeenRow),
      (notify_user wasOk false f sent db ds).db = db := by
  intro ds
  induction ds with
  | nil => intro sent db; rw [notify_user_nil]
  | cons d ds ih =>
    intro sent db
    by_cases hcap : MAX_DEALS_PER_USER ≤ sent
    · rw [notify_user_cons_break _ _ _ _ _ _ _ hcap]
    · by_cases hskip : (wasOk && was_deal_seen db (hash_deal d)) = true
      · rw [notify_user_cons_skip _ _ _ _ _ _ _ hcap hskip]
        exact ih sent db
      · have hskip' : (wasOk && was_deal_seen db (hash_deal d)) = false := by
          simpa using hskip
        rw [notify_user_cons_go _ _ _ _ _ _ _ hcap hskip']
        exact ih _ _

/-- C8 amended: when the ledger cannot be reached the pipeline does not skip
    notification; a failed was-seen read makes deliveries proceed without
    deduplication (independent of the ledger contents), and a failed
    mark-seen write is swallowed, leaving the dedup state unchanged - the
    cycle continues sending either way. -/
theorem c8_amended_sends_without_dedup :
    (∀ (markOk : Bool) (f : Deal → Bool) (ds : List Deal) (sent : ℕ)
      (db db' : List SeenRow),
      (notify_user false markOk f sent db ds).sent
        = (notify_user false markOk f sent db' ds).sent) ∧
    (∀ (wasOk : Bool) (f : Deal → Bool) (ds : List Deal) (sent : ℕ)
      (db : List SeenRow),
      (notify_user wasOk false f sent db ds).db = db) :=
  ⟨fun markOk f ds sent db db' => notify_wasfail_sent_indep markOk f ds sent db db',
   fun wasOk f ds sent db => notify_markfail_db_unchanged wasOk f ds sent db⟩

/-! ## Claim C9 -/

/-- C9: the TonAPI adapter returns the empty list when the token is absent or
    when every candidate response fails (network error, non-200 status,
    unparsable body, or a shape with no items); the Getgems adapter returns
    the empty list when disabled or its response fails; and the aggregation
    proceeds with the other source when one adapter comes back empty. -/
theorem c9_adapters_never_raise :
    (∀ resps : List TonResp, fetch_from_tonapi false resps = []) ∧
    (∀ (hasToken : Bool) (resps : List TonResp),
      (∀ r ∈ resps, ton_resp_failed r = true) → fetch_from_tonapi hasToken resps = []) ∧
    (∀ r : GGResp, fetch_from_getgems false r = []) ∧
    (∀ (enabled : Bool) (r : GGResp), gg_resp_failed r = true →
      fetch_from_getgems enabled r = []) ∧
    (∀ gg : List Deal, fetch_all_sources [] gg = dedup_by_key [] gg) ∧
    (∀ ton : List Deal, fetch_all_sources ton [] = dedup_by_key [] ton) := by
  have hloop : ∀ resps : List TonResp,
      (∀ r ∈ resps, ton_resp_failed r = true) → tonapi_loop resps = [] := by
    intro resps
    induction resps with
    | nil => intro _; rfl
    | cons r rs ih =>
      intro h
      have hr := h r (List.mem_cons_self _ _)
      have hrs := fun x hx => h x (List.mem_cons_of_mem _ hx)
      cases r with
      | fail => rw [tonapi_loop]; exact ih hrs
      | resp status body =>
        by_cases hs : status = 200
        · subst hs
          cases body with
          | none =>
            rw [tonapi_loop]
            simpa using ih hrs
          | some raw =>
            have hr' : raw.isEmpty = true := by
              simpa [ton_resp_failed] using hr
            have hraw : raw = [] := List.isEmpty_iff.mp hr'
            subst hraw
            rw [tonapi_loop]
            simpa using ih hrs
        · have hstep : tonapi_loop (TonResp.resp status body :: rs) = tonapi_loop rs := by
            cases body with
            | none =>
              rw [tonapi_loop]
              simp [hs]
            | some raw =>
              rw [tonapi_loop]
              simp [hs]
          rw [hstep]
          exact ih hrs
  refine ⟨fun resps => by simp [fetch_from_tonapi], ?_, fun r => by
    simp [fetch_from_getgems], ?_, ?_, ?_⟩
  · intro hasToken resps h
    cases hasToken with
    | false => simp [fetch_from_tonapi]
    | true =>
      rw [fetch_from_tonapi]
      simpa using hloop resps h
  · intro enabled r h
    cases enabled with
    | false => simp [fetch_from_getgems]
    | true =>
      cases r with
      | fail => simp [fetch_from_getgems]
      | resp status body =>
        simp only [gg_resp_failed, Bool.or_eq_true, decide_eq_true_eq] at h
        rcases h with h | h
        · simp [fetch_from_getgems, h]
        · have : body = none := Option.isNone_iff_eq_none.mp h
          subst this
          by_cases hs : status = 200
          · subst hs; simp [fetch_from_getgems]
          · simp [fetch_from_getgems, hs]
  · intro gg
    rw [fetch_all_sources_eq]
    rw [List.nil_append]
  · intro ton
    rw [fetch_all_sources_eq]
    rw [List.append_nil]

def c9_resps : List TonResp :=
  [TonResp.fail, TonResp.resp 500 (some [{ }]), TonResp.resp 200 none,
    TonResp.resp 200 (some [])]

/-- Witness for C9: a candidate list with a network error, a 500, an
    unparsable body and an empty shape yields the empty list, as does a
    Getgems response whose body fails to parse. -/
theorem c9_adapters_never_raise_witness :
    fetch_from_tonapi true c9_resps = [] ∧
    fetch_from_getgems true (GGResp.resp 200 none) = [] :=
  ⟨c9_adapters_never_raise.2.1 true c9_resps (by decide),
   c9_adapters_never_raise.2.2.2.1 true (GGResp.resp 200 none) (by decide)⟩

/-! ## Claim C10 -/

/-- C10: one notify run delivers at most MAX_DEALS_PER_USER (3) messages no
    matter how many deals it is given; once the success counter reaches the
    cap the loop breaks, leaving the ledger untouched and the remaining deals
    unsent and unattempted; and every fingerprint newly recorded in a run
    belongs to a deal that got a delivery attempt in that run. -/
theorem c10_per_user_cap :
    (∀ (wasOk markOk : Bool) (f : Deal → Bool) (db : List SeenRow)
      (deals : List Deal),
      (notify_user wasOk markOk f 0 db deals).sent.length ≤ MAX_DEALS_PER_USER) ∧
    (∀ (wasOk markOk : Bool) (f : Deal → Bool) (sent : ℕ) (db : List SeenRow)
      (deals : List Deal), MAX_DEALS_PER_USER ≤ sent →
      notify_user wasOk markOk f sent db deals = ⟨db, [], []⟩) ∧
    (∀ (wasOk markOk : Bool) (f : Deal → Bool) (sent : ℕ) (db : List SeenRow)
      (deals : List Deal) (x : String),
      x ∈ db_ids (notify_user wasOk markOk f sent db deals).db →
      x ∈ db_ids db ∨
        x ∈ (notify_user wasOk markOk f sent db deals).attempted.map hash_deal) :=
  ⟨fun wasOk markOk f db deals => by
      have h := notify_sent_length wasOk markOk f deals 0 db
      simpa using h,
   fun wasOk markOk f sent db deals h => notify_break wasOk markOk f deals sent db h,
   fun wasOk markOk f sent db deals x h =>
     notify_ids_from_attempts wasOk markOk f x deals sent db h⟩

def c10_deal : Deal := { id := some "w" }

/-- Witness for C10: at the cap the loop processes nothing, and a one-deal
    run stays within the cap; an identity present after a capped run was
    already in the ledger. -/
theorem c10_per_user_cap_witness :
    notify_user true true (fun _ => true) MAX_DEALS_PER_USER [] [c10_deal]
      = ⟨[], [], []⟩ ∧
    (notify_user true true (fun _ => true) 0 [] [c10_deal]).sent.length
      ≤ MAX_DEALS_PER_USER ∧
    ("q" ∈ db_ids [{ deal_id := "q" }] ∨
      "q" ∈ (notify_user true true (fun _ => true) MAX_DEALS_PER_USER
        [{ deal_id := "q" }] [c10_deal]).attempted.map hash_deal) := by
  refine ⟨c10_per_user_cap.2.1 true true (fun _ => true) MAX_DEALS_PER_USER []
    [c10_deal] (le_refl _),
    c10_per_user_cap.1 true true (fun _ => true) [] [c10_deal], ?_⟩
  refine c10_per_user_cap.2.2 true true (fun _ => true) MAX_DEALS_PER_USER
    [{ deal_id := "q" }] [c10_deal] "q" ?_
  rw [notify_break _ _ _ _ _ _ (le_refl _)]
  simp [db_ids]

end NFTBot

